import Mathlib

/-!
Shallow embedding of the market-regime analysis engine
(`market_analysis.py`): daily aggregation, indicator derivation,
regime classification, trade attribution and per-regime statistics.

Dates are modelled as natural numbers (day indices); timestamps as
natural numbers measured in minutes, so the calendar date of a
timestamp is its integer division by 1440.  Prices and P&L are exact
rationals; the final Sharpe ratio, which involves a square root, lives
in the reals.
-/

namespace MarketAnalysis

/-- `TrendRegime` enum values, in declaration order (`for trend in TrendRegime`
iterates in this order). -/
def trendRegimeValues : List String :=
  ["uptrend", "downtrend", "sideways", "unclassified"]

/-- `VolatilityRegime` enum values, in declaration order. -/
def volatilityRegimeValues : List String :=
  ["high", "medium", "low"]

/-- One raw price sample (a row of the input frame when it carries a
`date` column). -/
structure Bar where
  date : Nat
  open' : ℚ
  high : ℚ
  low : ℚ
  close : ℚ
  volume : ℚ
deriving DecidableEq, Inhabited

/-- One aggregated daily OHLCV row, before indicators are attached. -/
structure DailyBar where
  date : Nat
  open' : ℚ
  high : ℚ
  low : ℚ
  close : ℚ
  volume : ℚ
deriving DecidableEq, Inhabited

/-- One row of `self.daily_data` after `_prepare_daily_data`: the daily
OHLCV values plus the three indicator columns. -/
structure DailyRow where
  date : Nat
  open' : ℚ
  high : ℚ
  low : ℚ
  close : ℚ
  volume : ℚ
  ma_short : ℚ
  ma_long : ℚ
  atr : ℚ
deriving DecidableEq, Inhabited

/-- One row of `self.regimes` (the regime calendar), keyed by date. -/
structure RegimeRow where
  date : Nat
  trend : String
  volatility : String
  atr : ℚ
deriving DecidableEq, Inhabited

/-- One closed trade of the input trade log: `entry_time` in minutes and
the signed profit-and-loss. -/
structure Trade where
  entry_time : Nat
  pnl : ℚ
deriving DecidableEq, Inhabited

/-- A trade after the attribution join: the trade plus the `trend` and
`volatility` labels copied from the regime calendar (or the
`unclassified` sentinels). -/
structure TaggedTrade where
  entry_time : Nat
  pnl : ℚ
  trend : String
  volatility : String
deriving DecidableEq, Inhabited

/-- The `RegimeMetrics` dataclass. -/
structure RegimeMetrics where
  n_trades : Nat
  win_rate : ℚ
  avg_pnl : ℚ
  total_pnl : ℚ
  sharpe : Option ℝ

/-- Maximum of a list of rationals (`groupby(...).max()`); only applied
to nonempty groups, the default for `[]` is never reached. -/
def listMax : List ℚ → ℚ
  | [] => 0
  | x :: xs => xs.foldl max x

/-- Minimum of a list of rationals (`groupby(...).min()`). -/
def listMin : List ℚ → ℚ
  | [] => 0
  | x :: xs => xs.foldl min x

/-- Mean of a list of rationals (`Series.mean()`). -/
def listMean (xs : List ℚ) : ℚ := xs.sum / (xs.length : ℚ)

/-- Sample variance with one delta degree of freedom, the square of
pandas' `Series.std()` (only used where the length is at least 2). -/
def sampleVar (xs : List ℚ) : ℚ :=
  ((xs.map (fun x => (x - listMean xs) ^ 2)).sum) / ((xs.length : ℚ) - 1)

/-- Three-list pointwise zip, used to assemble row structures from
parallel column series. -/
def zipWith3 (f : α → β → γ → δ) : List α → List β → List γ → List δ
  | a :: as, b :: bs, c :: cs => f a b c :: zipWith3 f as bs cs
  | _, _, _ => []

/-- The calendar date of a trade timestamp
(`pd.to_datetime(...).dt.date`): minutes since epoch divided by the
minutes of a day. -/
def dateOfTs (ts : Nat) : Nat := ts / 1440

/-- Aggregate the group of bars sharing one date:
open = first, high = max, low = min, close = last, volume = sum. -/
def aggGroup (d : Nat) (g : List Bar) : DailyBar :=
  { date := d
    open' := (g.map Bar.open').headD 0
    high := listMax (g.map Bar.high)
    low := listMin (g.map Bar.low)
    close := (g.map Bar.close).getLastD 0
    volume := (g.map Bar.volume).sum }

/-- The `groupby('date')` aggregation of `_prepare_daily_data`: one row
per distinct date, dates in ascending order (pandas sorts group keys). -/
def aggDaily (bars : List Bar) : List DailyBar :=
  (List.insertionSort (· ≤ ·) (bars.map Bar.date).dedup).map
    (fun d => aggGroup d (bars.filter (fun b => b.date = d)))

/-- State-carrying core of the adjusted exponentially weighted mean:
`num` and `den` accumulate the weighted sum and the weight total. -/
def ewmAux (a : ℚ) (num den : ℚ) : List ℚ → List ℚ
  | [] => []
  | x :: xs =>
    let n := x + (1 - a) * num
    let d := 1 + (1 - a) * den
    (n / d) :: ewmAux a n d xs

/-- `Series.ewm(alpha=a, min_periods=1).mean()` with the default
adjusted weighting: `y_t = (Σ (1-a)^i x_(t-i)) / (Σ (1-a)^i)`. -/
def ewmAdj (a : ℚ) (xs : List ℚ) : List ℚ := ewmAux a 0 0 xs

/-- `Series.ewm(span=s, min_periods=1).mean()`: span `s` corresponds to
smoothing factor `2 / (s + 1)`. -/
def emaSpan (s : Nat) (xs : List ℚ) : List ℚ :=
  ewmAdj (2 / ((s : ℚ) + 1)) xs

/-- True-range rows after the first: `max(h-l, |h - prev_close|,
|l - prev_close|)`. -/
def trueRangesAux (prev : DailyBar) : List DailyBar → List ℚ
  | [] => []
  | b :: bs =>
    max (b.high - b.low) (max |b.high - prev.close| |b.low - prev.close|) ::
      trueRangesAux b bs

/-- The true-range series: on the first row the shifted previous close
is missing and `fillna(0)` turns both absolute-difference columns into
0, so the row-wise max is `max(h-l, 0, 0)`. -/
def trueRanges : List DailyBar → List ℚ
  | [] => []
  | b :: bs => max (b.high - b.low) (max 0 0) :: trueRangesAux b bs

/-- Assemble a `daily_data` row from the aggregated bar and the three
indicator values. -/
def mkDailyRow (b : DailyBar) (mas : ℚ × ℚ) (a : ℚ) : DailyRow :=
  { date := b.date, open' := b.open', high := b.high, low := b.low
    close := b.close, volume := b.volume
    ma_short := mas.1, ma_long := mas.2, atr := a }

/-- Attach `ma_short` (span 20), `ma_long` (span 200) and `atr`
(span-21 smoothing of the true range) to the daily rows. -/
def addIndicators (daily : List DailyBar) : List DailyRow :=
  let closes := daily.map DailyBar.close
  zipWith3 mkDailyRow daily
    ((emaSpan 20 closes).zip (emaSpan 200 closes))
    (emaSpan 21 (trueRanges daily))

/-- `_prepare_daily_data` on a frame that has a `date` column: group
into daily bars, then compute the indicator columns.  The `ffill()` and
`dropna()` steps are identities here because every modelled value is
present. -/
def prepareDaily (bars : List Bar) : List DailyRow :=
  addIndicators (aggDaily bars)

/-- `Series.quantile(q)` with the default linear interpolation; `none`
models the NaN produced on an empty series. -/
def quantile (xs : List ℚ) (q : ℚ) : Option ℚ :=
  if xs.length = 0 then none
  else
    let s := List.insertionSort (· ≤ ·) xs
    let h : ℚ := ((xs.length : ℚ) - 1) * q
    let lo := (⌊h⌋).toNat
    let hi := (⌈h⌉).toNat
    let vlo := s.getD lo 0
    let vhi := s.getD hi 0
    some (vlo + (h - (lo : ℚ)) * (vhi - vlo))

/-- `x <= q` where `q` may be NaN (comparison with NaN is false). -/
def leNaN (x : ℚ) : Option ℚ → Bool
  | some q => decide (x ≤ q)
  | none => false

/-- `x >= q` where `q` may be NaN (comparison with NaN is false). -/
def geNaN (x : ℚ) : Option ℚ → Bool
  | some q => decide (q ≤ x)
  | none => false

/-- The three masked assignments building the `trends` series, in
source order: UPTREND where both conditions hold, DOWNTREND where
neither holds, SIDEWAYS filling the rows still unset. -/
def trendLabel (above rising : Bool) : String :=
  let s : Option String := none
  let s := if above && rising then some "uptrend" else s
  let s := if !above && !rising then some "downtrend" else s
  match s with
  | some v => v
  | none => "sideways"

/-- The three masked assignments building the `volatility` series, in
source order: LOW where `atr <= q33`, then HIGH where `atr >= q67`
(overwriting any earlier LOW), then MEDIUM filling the rows still
unset. -/
def volLabel (q33 q67 : Option ℚ) (a : ℚ) : String :=
  let s : Option String := none
  let s := if leNaN a q33 then some "low" else s
  let s := if geNaN a q67 then some "high" else s
  match s with
  | some v => v
  | none => "medium"

/-- `ma_short > ma_short.shift(1)`: the shifted series is NaN on the
first row, where the comparison is false. -/
def risingShort : List ℚ → List Bool
  | [] => []
  | m :: ms => false :: (m :: ms).zipWith (fun a b => decide (a < b)) ms

/-- The `above_long_ma` condition column: `close > ma_long`. -/
def aboveLongSeries (daily : List DailyRow) : List Bool :=
  daily.map (fun r => decide (r.ma_long < r.close))

/-- The `rising_short_ma` condition column. -/
def risingShortSeries (daily : List DailyRow) : List Bool :=
  risingShort (daily.map DailyRow.ma_short)

/-- The `trends` series of `classify_regimes`. -/
def trendSeries (daily : List DailyRow) : List String :=
  List.zipWith trendLabel (aboveLongSeries daily) (risingShortSeries daily)

/-- The `volatility` series of `classify_regimes`: batch 33rd/67th
percentiles of the whole ATR series, then the masked labelling. -/
def volSeries (daily : List DailyRow) : List String :=
  let atrs := daily.map DailyRow.atr
  atrs.map (volLabel (quantile atrs (33 / 100)) (quantile atrs (67 / 100)))

/-- `classify_regimes`: the regime calendar, one row per daily row,
carrying the trend label, the volatility label and the ATR. -/
def classifyRegimes (daily : List DailyRow) : List RegimeRow :=
  zipWith3 (fun (r : DailyRow) t v =>
      ({ date := r.date, trend := t, volatility := v, atr := r.atr } : RegimeRow))
    daily (trendSeries daily) (volSeries daily)

/-- The rows the left merge produces for one trade: one output row per
calendar row matching the trade's entry date, or a single
sentinel-labelled row when no calendar row matches (the merge keeps
every left row; the two `isna` assignments fill the sentinels). -/
def matchRegimes (cal : List RegimeRow) (t : Trade) : List TaggedTrade :=
  let ms := cal.filter (fun r => r.date = dateOfTs t.entry_time)
  if ms.isEmpty then
    [{ entry_time := t.entry_time, pnl := t.pnl
       trend := "unclassified", volatility := "unclassified" }]
  else
    ms.map (fun r =>
      { entry_time := t.entry_time, pnl := t.pnl
        trend := r.trend, volatility := r.volatility })

/-- The `trades_with_regimes` frame: the left merge of the trade log
with the regime calendar on the entry date, in trade-log order. -/
def tagTrades (trades : List Trade) (cal : List RegimeRow) : List TaggedTrade :=
  trades.flatMap (matchRegimes cal)

/-- Modelled from the spec (§4.4), for comparison with `tagTrades`: an
explicit per-trade lookup tagging each trade exactly once. -/
def tagTradeSpec (cal : List RegimeRow) (t : Trade) : TaggedTrade :=
  match cal.find? (fun r => r.date = dateOfTs t.entry_time) with
  | some r =>
    { entry_time := t.entry_time, pnl := t.pnl
      trend := r.trend, volatility := r.volatility }
  | none =>
    { entry_time := t.entry_time, pnl := t.pnl
      trend := "unclassified", volatility := "unclassified" }

/-- `pnl / initial_capital * 100`. -/
def returnPct (cap pnl : ℚ) : ℚ := pnl / cap * 100

/-- `groupby(entry date)['return_pct'].sum()`: one summed percentage
return per distinct entry date.  (pandas sorts the group keys; the
order is irrelevant to the count, mean and standard deviation taken of
this series.) -/
def dailyReturns (cap : ℚ) (data : List TaggedTrade) : List ℚ :=
  ((data.map (fun t => dateOfTs t.entry_time)).dedup).map
    (fun d =>
      ((data.filter (fun t => dateOfTs t.entry_time = d)).map
        (fun t => returnPct cap t.pnl)).sum)

/-- pandas' `Series.std()` (sample standard deviation): the real square
root of the sample variance. -/
noncomputable def sampleStd (xs : List ℚ) : ℝ := Real.sqrt (sampleVar xs)

open Classical in
/-- `_calculate_regime_sharpe`: gated annualized return over annualized
volatility; `none` models the Python `None`. -/
noncomputable def regimeSharpe (cap : ℚ) (data : List TaggedTrade) : Option ℝ :=
  if data.length < 20 then none
  else
    let dr := dailyReturns cap data
    if dr.length < 20 ∨ sampleStd dr = 0 then none
    else
      let tradingDays := dr.length
      if tradingDays < 20 then none
      else
        some (((listMean dr : ℝ) * (tradingDays : ℝ)) /
          (sampleStd dr * Real.sqrt (tradingDays : ℝ)))

/-- The `RegimeMetrics` record built for one nonempty regime bucket. -/
noncomputable def mkMetrics (cap : ℚ) (data : List TaggedTrade) : RegimeMetrics :=
  { n_trades := data.length
    win_rate := (((data.filter (fun t => 0 < t.pnl)).length : ℚ) / (data.length : ℚ))
    avg_pnl := (data.map TaggedTrade.pnl).sum / (data.length : ℚ)
    total_pnl := (data.map TaggedTrade.pnl).sum
    sharpe := regimeSharpe cap data }

/-- The trend-regime bucket for one label: emitted only when the
filtered set is nonempty. -/
noncomputable def trendBucket (cap : ℚ) (tw : List TaggedTrade) (tv : String) :
    List (String × RegimeMetrics) :=
  let data := tw.filter (fun t => t.trend = tv)
  if 0 < data.length then [(tv ++ "_regime", mkMetrics cap data)] else []

/-- The volatility-regime bucket for one label. -/
noncomputable def volBucket (cap : ℚ) (tw : List TaggedTrade) (vv : String) :
    List (String × RegimeMetrics) :=
  let data := tw.filter (fun t => t.volatility = vv)
  if 0 < data.length then [(vv ++ "_vol", mkMetrics cap data)] else []

/-- `analyze_performance`: the metrics mapping (the first component of
the Python return value; the second, `trades_with_regimes`, is
`tagTrades trades cal`). -/
noncomputable def analyzePerformance (cap : ℚ) (cal : List RegimeRow)
    (trades : List Trade) : List (String × RegimeMetrics) :=
  let tw := tagTrades trades cal
  trendRegimeValues.flatMap (trendBucket cap tw) ++
    volatilityRegimeValues.flatMap (volBucket cap tw)

/-- The capital-independent fields of a bucket. -/
def stripSharpe (m : RegimeMetrics) : Nat × ℚ × ℚ × ℚ :=
  (m.n_trades, m.win_rate, m.avg_pnl, m.total_pnl)

/-- Column-schema view of `_prepare_daily_data`: with a `date` column
the aggregated frame carries the OHLCV and indicator columns; without
one the input frame is passed through unchanged (no indicator is
computed). -/
def prepareDailyCols (cols : List String) : List String :=
  if "date" ∈ cols then
    ["open", "high", "low", "close", "volume", "ma_short", "ma_long", "atr"]
  else cols

/-- Read one column of a frame, raising `KeyError` (modelled as
`Except.error` carrying the key) when the column is absent. -/
def getColE (cols : List String) (c : String) : Except String Unit :=
  if c ∈ cols then Except.ok () else Except.error c

/-- Column accesses of `classify_regimes` in evaluation order: `close`
and `ma_long` (the `above_long_ma` condition), `ma_short` (the
`rising_short_ma` condition), then `atr` (the quantiles). -/
def classifyRegimesCols (cols : List String) : Except String Unit := do
  _ ← getColE cols "close"
  _ ← getColE cols "ma_long"
  _ ← getColE cols "ma_short"
  _ ← getColE cols "atr"
  Except.ok ()

/-- Spec-side `above_long` condition at day `i` (§4.3): close above the
long moving average. -/
def aboveAt (daily : List DailyRow) (i : Nat) : Prop :=
  (daily.getD i default).ma_long < (daily.getD i default).close

/-- Spec-side `rising_short` condition at day `i`: false on the first
day (no previous value), else a strict increase of `ma_short`. -/
def risingAt (daily : List DailyRow) (i : Nat) : Prop :=
  0 < i ∧ (daily.getD (i - 1) default).ma_short < (daily.getD i default).ma_short

instance (daily : List DailyRow) (i : Nat) : Decidable (aboveAt daily i) := by
  unfold aboveAt; infer_instance

instance (daily : List DailyRow) (i : Nat) : Decidable (risingAt daily i) := by
  unfold risingAt; infer_instance

end MarketAnalysis

namespace MarketAnalysis

theorem ewmAux_length (a : ℚ) (xs : List ℚ) : ∀ (n d : ℚ),
    (ewmAux a n d xs).length = xs.length := by
  induction xs with
  | nil => intro n d; rfl
  | cons x xs ih => intro n d; simp [ewmAux, ih]

theorem emaSpan_length (s : Nat) (xs : List ℚ) :
    (emaSpan s xs).length = xs.length :=
  ewmAux_length _ xs 0 0

theorem trueRangesAux_length (p : DailyBar) (bs : List DailyBar) :
    (trueRangesAux p bs).length = bs.length := by
  induction bs generalizing p with
  | nil => rfl
  | cons b bs ih => simp [trueRangesAux, ih]

theorem trueRanges_length (bs : List DailyBar) :
    (trueRanges bs).length = bs.length := by
  cases bs with
  | nil => rfl
  | cons b bs => simp [trueRanges, trueRangesAux_length]

theorem zipWith3_length (f : α → β → γ → δ) (as : List α) :
    ∀ (bs : List β) (cs : List γ),
      (zipWith3 f as bs cs).length = min as.length (min bs.length cs.length) := by
  induction as with
  | nil => intro bs cs; simp [zipWith3]
  | cons a as ih =>
    intro bs cs
    cases bs with
    | nil => simp [zipWith3]
    | cons b bs =>
      cases cs with
      | nil => simp [zipWith3]
      | cons c cs =>
        simp only [zipWith3, List.length_cons, ih bs cs]
        omega

theorem zipWith3_getD (f : α → β → γ → δ) (da : α) (db : β) (dc : γ) (dd : δ)
    (as : List α) : ∀ (bs : List β) (cs : List γ) (i : Nat),
      i < as.length → i < bs.length → i < cs.length →
      (zipWith3 f as bs cs).getD i dd = f (as.getD i da) (bs.getD i db) (cs.getD i dc) := by
  induction as with
  | nil => intro bs cs i h _ _; simp at h
  | cons a as ih =>
    intro bs cs i h1 h2 h3
    cases bs with
    | nil => simp at h2
    | cons b bs =>
      cases cs with
      | nil => simp at h3
      | cons c cs =>
        cases i with
        | zero => rfl
        | succ i =>
          simp only [zipWith3, List.getD_cons_succ]
          exact ih bs cs i (by simpa using h1) (by simpa using h2) (by simpa using h3)

theorem zipWith_getD (f : α → β → γ) (da : α) (db : β) (dc : γ)
    (as : List α) : ∀ (bs : List β) (i : Nat),
      i < as.length → i < bs.length →
      (List.zipWith f as bs).getD i dc = f (as.getD i da) (bs.getD i db) := by
  induction as with
  | nil => intro bs i h _; simp at h
  | cons a as ih =>
    intro bs i h1 h2
    cases bs with
    | nil => simp at h2
    | cons b bs =>
      cases i with
      | zero => rfl
      | succ i =>
        simp only [List.zipWith_cons_cons, List.getD_cons_succ]
        exact ih bs i (by simpa using h1) (by simpa using h2)

theorem getD_map_of_lt (g : α → β) (l : List α) (i : Nat) (h : i < l.length)
    (d : β) (d' : α) : (l.map g).getD i d = g (l.getD i d') := by
  rw [List.getD_eq_getElem _ _ (by simpa using h), List.getD_eq_getElem _ _ h,
    List.getElem_map]

theorem risingShort_length (ms : List ℚ) : (risingShort ms).length = ms.length := by
  cases ms with
  | nil => rfl
  | cons m ms => simp [risingShort]

theorem aboveLongSeries_length (daily : List DailyRow) :
    (aboveLongSeries daily).length = daily.length := by
  simp [aboveLongSeries]

theorem risingShortSeries_length (daily : List DailyRow) :
    (risingShortSeries daily).length = daily.length := by
  simp [risingShortSeries, risingShort_length]

theorem trendSeries_length (daily : List DailyRow) :
    (trendSeries daily).length = daily.length := by
  simp [trendSeries, List.length_zipWith, aboveLongSeries_length,
    risingShortSeries_length]

theorem volSeries_length (daily : List DailyRow) :
    (volSeries daily).length = daily.length := by
  simp [volSeries]

theorem classifyRegimes_length (daily : List DailyRow) :
    (classifyRegimes daily).length = daily.length := by
  simp [classifyRegimes, zipWith3_length, trendSeries_length, volSeries_length]

theorem trendLabel_eq (a r : Bool) :
    trendLabel a r =
      if a = true ∧ r = true then "uptrend"
      else if a = false ∧ r = false then "downtrend"
      else "sideways" := by
  cases a <;> cases r <;> simp [trendLabel]

theorem volLabel_eq (q33 q67 : Option ℚ) (a : ℚ) :
    volLabel q33 q67 a =
      if geNaN a q67 then "high"
      else if leNaN a q33 then "low"
      else "medium" := by
  unfold volLabel
  cases hle : leNaN a q33 <;> cases hge : geNaN a q67 <;> simp [hle, hge]

theorem risingShort_getD (ms : List ℚ) (i : Nat) (h : i < ms.length) :
    (risingShort ms).getD i false =
      decide (0 < i ∧ ms.getD (i - 1) 0 < ms.getD i 0) := by
  cases ms with
  | nil => simp at h
  | cons m ms =>
    cases i with
    | zero => simp [risingShort]
    | succ i =>
      have hi : i < ms.length := by simpa using h
      simp only [risingShort, List.getD_cons_succ]
      rw [zipWith_getD _ 0 0 false (m :: ms) ms i (by simp; omega) hi]
      simp [decide_eq_decide]

end MarketAnalysis

namespace MarketAnalysis

theorem trendSeries_getD (daily : List DailyRow) (i : Nat) (h : i < daily.length) :
    (trendSeries daily).getD i "" =
      trendLabel (decide (aboveAt daily i)) (decide (risingAt daily i)) := by
  unfold trendSeries
  rw [zipWith_getD _ false false "" _ _ i
    (by rw [aboveLongSeries_length]; exact h)
    (by rw [risingShortSeries_length]; exact h)]
  congr 1
  · unfold aboveLongSeries aboveAt
    exact getD_map_of_lt _ daily i h false default
  · unfold risingShortSeries
    have hlen : i < (daily.map DailyRow.ma_short).length := by simpa using h
    rw [risingShort_getD _ i hlen]
    rcases Nat.eq_zero_or_pos i with hi | hi
    · subst hi; simp [risingAt]
    · have h1 : i - 1 < daily.length := by omega
      rw [getD_map_of_lt DailyRow.ma_short daily i h 0 default,
        getD_map_of_lt DailyRow.ma_short daily (i - 1) h1 0 default]
      rfl

theorem volSeries_getD (daily : List DailyRow) (i : Nat) (h : i < daily.length) :
    (volSeries daily).getD i "" =
      volLabel (quantile (daily.map DailyRow.atr) (33 / 100))
        (quantile (daily.map DailyRow.atr) (67 / 100))
        ((daily.map DailyRow.atr).getD i 0) := by
  unfold volSeries
  exact getD_map_of_lt _ _ i (by simpa using h) "" 0

theorem classifyRegimes_getD (daily : List DailyRow) (i : Nat) (h : i < daily.length) :
    (classifyRegimes daily).getD i default =
      { date := (daily.getD i default).date
        trend := (trendSeries daily).getD i ""
        volatility := (volSeries daily).getD i ""
        atr := (daily.getD i default).atr } := by
  unfold classifyRegimes
  rw [zipWith3_getD _ default "" "" default daily _ _ i h
    (by rw [trendSeries_length]; exact h)
    (by rw [volSeries_length]; exact h)]

/-- C5: for every day of the regime calendar the trend label follows
the precedence rule UPTREND when both `above_long` and `rising_short`
hold, DOWNTREND when neither holds, SIDEWAYS when exactly one holds;
`rising_short` is false on the first day (no previous `ma_short`). -/
theorem trend_rule_per_day (daily : List DailyRow) (i : Nat) (h : i < daily.length) :
    ((classifyRegimes daily).getD i default).trend =
      (if aboveAt daily i ∧ risingAt daily i then "uptrend"
       else if ¬aboveAt daily i ∧ ¬risingAt daily i then "downtrend"
       else "sideways") := by
  rw [classifyRegimes_getD daily i h]
  simp only
  rw [trendSeries_getD daily i h, trendLabel_eq]
  simp

/-- C5 witness: the rule instantiated on a concrete one-day calendar. -/
theorem trend_rule_per_day_witness :
    (0 < ([⟨0, 1, 2, 1, 1, 1, 1, 1, 5⟩] : List DailyRow).length) ∧
    ((classifyRegimes [⟨0, 1, 2, 1, 1, 1, 1, 1, 5⟩]).getD 0 default).trend =
      (if aboveAt [⟨0, 1, 2, 1, 1, 1, 1, 1, 5⟩] 0 ∧ risingAt [⟨0, 1, 2, 1, 1, 1, 1, 1, 5⟩] 0
        then "uptrend"
       else if ¬aboveAt [⟨0, 1, 2, 1, 1, 1, 1, 1, 5⟩] 0 ∧ ¬risingAt [⟨0, 1, 2, 1, 1, 1, 1, 1, 5⟩] 0
        then "downtrend"
       else "sideways") :=
  ⟨by simp, trend_rule_per_day [⟨0, 1, 2, 1, 1, 1, 1, 1, 5⟩] 0 (by simp)⟩

/-- C2 (amended): the HIGH masked assignment is applied after the LOW
one, so a day whose ATR passes the ≥-67th-percentile test is labeled
HIGH even when it also passes the ≤-33rd-percentile test; only a day
passing the LOW test alone is labeled LOW, and MEDIUM otherwise. -/
theorem volatility_tie_high_precedence (daily : List DailyRow) (i : Nat)
    (h : i < daily.length) :
    ((classifyRegimes daily).getD i default).volatility =
      (if geNaN ((daily.map DailyRow.atr).getD i 0)
          (quantile (daily.map DailyRow.atr) (67 / 100)) then "high"
       else if leNaN ((daily.map DailyRow.atr).getD i 0)
          (quantile (daily.map DailyRow.atr) (33 / 100)) then "low"
       else "medium") := by
  rw [classifyRegimes_getD daily i h]
  simp only
  rw [volSeries_getD daily i h, volLabel_eq]

/-- C2 witness: the amended rule instantiated on a concrete one-day
calendar. -/
theorem volatility_tie_high_precedence_witness :
    (0 < ([⟨0, 1, 2, 1, 1, 1, 1, 1, 5⟩] : List DailyRow).length) ∧
    ((classifyRegimes [⟨0, 1, 2, 1, 1, 1, 1, 1, 5⟩]).getD 0 default).volatility =
      (if geNaN ((([⟨0, 1, 2, 1, 1, 1, 1, 1, 5⟩] : List DailyRow).map DailyRow.atr).getD 0 0)
          (quantile (([⟨0, 1, 2, 1, 1, 1, 1, 1, 5⟩] : List DailyRow).map DailyRow.atr) (67 / 100))
        then "high"
       else if leNaN ((([⟨0, 1, 2, 1, 1, 1, 1, 1, 5⟩] : List DailyRow).map DailyRow.atr).getD 0 0)
          (quantile (([⟨0, 1, 2, 1, 1, 1, 1, 1, 5⟩] : List DailyRow).map DailyRow.atr) (33 / 100))
        then "low"
       else "medium") :=
  ⟨by simp, volatility_tie_high_precedence [⟨0, 1, 2, 1, 1, 1, 1, 1, 5⟩] 0 (by simp)⟩

/-- C2 counterexample: a one-day calendar makes the 33rd and 67th
percentiles coincide with the day's ATR, the ≤-33rd test passes, yet
the day is labeled HIGH, not LOW as the claim states. -/
theorem volatility_tie_labels_high :
    leNaN 5 (quantile [(5 : ℚ)] (33 / 100)) = true ∧
    geNaN 5 (quantile [(5 : ℚ)] (67 / 100)) = true ∧
    (classifyRegimes [⟨0, 1, 2, 1, 1, 1, 1, 1, 5⟩]).map RegimeRow.volatility = ["high"] := by
  refine ⟨?_, ?_, ?_⟩ <;>
    norm_num [leNaN, geNaN, quantile, List.insertionSort, List.orderedInsert,
      classifyRegimes, volSeries, trendSeries, aboveLongSeries, risingShortSeries,
      risingShort, zipWith3, volLabel, trendLabel]

end MarketAnalysis

namespace MarketAnalysis

theorem aggDaily_ne_nil (bars : List Bar) (h : bars ≠ []) : aggDaily bars ≠ [] := by
  unfold aggDaily
  simp only [ne_eq, List.map_eq_nil_iff]
  intro hs
  have hperm := (List.perm_insertionSort (· ≤ ·) (bars.map Bar.date).dedup).symm
  rw [hs] at hperm
  have hd := hperm.eq_nil
  rw [List.dedup_eq_nil, List.map_eq_nil_iff] at hd
  exact h hd

theorem addIndicators_head (b0 : DailyBar) (bs : List DailyBar) :
    ∃ d0 tl, addIndicators (b0 :: bs) = d0 :: tl ∧
      d0.close = b0.close ∧ d0.ma_long = b0.close := by
  unfold addIndicators emaSpan ewmAdj
  simp only [List.map_cons, ewmAux, trueRanges, List.zip_cons_cons, zipWith3]
  refine ⟨_, _, rfl, rfl, ?_⟩
  simp [mkDailyRow]

theorem classifyRegimes_head (d0 : DailyRow) (dtl : List DailyRow) :
    (classifyRegimes (d0 :: dtl)).head?.map RegimeRow.trend =
      some (trendLabel (decide (d0.ma_long < d0.close)) false) := by
  simp [classifyRegimes, trendSeries, aboveLongSeries, risingShortSeries,
    List.map_cons, risingShort, zipWith3]

/-- C9: for every nonempty input price series the first day of the
regime calendar is labeled DOWNTREND: with min-periods-1 exponential
averaging the first `ma_long` equals the first close, so the strict
comparison fails, and `rising_short` is false on the first day. -/
theorem first_day_downtrend (bars : List Bar) (h : bars ≠ []) :
    ((classifyRegimes (prepareDaily bars)).head?).map RegimeRow.trend =
      some "downtrend" := by
  obtain ⟨b0, bs, hb⟩ := List.exists_cons_of_ne_nil (aggDaily_ne_nil bars h)
  obtain ⟨d0, tl, heq, hc, hml⟩ := addIndicators_head b0 bs
  unfold prepareDaily
  rw [hb, heq, classifyRegimes_head]
  have hnlt : ¬(d0.ma_long < d0.close) := by rw [hml, hc]; exact lt_irrefl _
  simp [hnlt, trendLabel]

/-- C9 witness: the first-day rule instantiated on a concrete one-bar
price series. -/
theorem first_day_downtrend_witness :
    (([⟨0, 1, 2, 1, 1, 1⟩] : List Bar) ≠ []) ∧
    ((classifyRegimes (prepareDaily [⟨0, 1, 2, 1, 1, 1⟩])).head?).map RegimeRow.trend =
      some "downtrend" :=
  ⟨by simp, first_day_downtrend [⟨0, 1, 2, 1, 1, 1⟩] (by simp)⟩

end MarketAnalysis

namespace MarketAnalysis

theorem matchRegimes_eq_spec (t : Trade) :
    ∀ cal : List RegimeRow, (cal.map RegimeRow.date).Nodup →
      matchRegimes cal t = [tagTradeSpec cal t] := by
  intro cal
  induction cal with
  | nil => intro _; rfl
  | cons r cal ih =>
    intro hnd
    rw [List.map_cons, List.nodup_cons] at hnd
    obtain ⟨hnotmem, hnd'⟩ := hnd
    by_cases hr : r.date = dateOfTs t.entry_time
    · have hfilter : List.filter (fun x => decide (x.date = dateOfTs t.entry_time)) cal = [] := by
        rw [List.filter_eq_nil_iff]
        intro x hx hxd
        simp only [decide_eq_true_eq] at hxd
        exact hnotmem (List.mem_map.mpr ⟨x, hx, by rw [hxd, hr]⟩)
      simp [matchRegimes, tagTradeSpec, List.filter_cons, List.find?, hr, hfilter]
    · have hstep := ih hnd'
      unfold matchRegimes tagTradeSpec at hstep ⊢
      rw [List.filter_cons_of_neg (by simpa using hr),
        List.find?_cons_of_neg _ (by simpa using hr)]
      exact hstep

/-- C4: with a well-formed regime calendar (unique dates, trend and
volatility labels drawn from the defined regime values) the left merge
of `analyze_performance` retains each input trade exactly once, in
order, and a tagged trade carries the UNCLASSIFIED trend sentinel and
the "unclassified" volatility sentinel iff the calendar date of its
entry time has no calendar row. -/
theorem trade_attribution_exactly_once (trades : List Trade) (cal : List RegimeRow)
    (hnd : (cal.map RegimeRow.date).Nodup)
    (hwf : ∀ r ∈ cal, r.trend ∈ ["uptrend", "downtrend", "sideways"] ∧
      r.volatility ∈ ["high", "medium", "low"]) :
    tagTrades trades cal = trades.map (tagTradeSpec cal) ∧
    ∀ t ∈ trades,
      (((tagTradeSpec cal t).trend = "unclassified" ∧
        (tagTradeSpec cal t).volatility = "unclassified") ↔
        dateOfTs t.entry_time ∉ cal.map RegimeRow.date) := by
  constructor
  · induction trades with
    | nil => rfl
    | cons t ts ih =>
      simp only [tagTrades, List.flatMap_cons, List.map_cons] at ih ⊢
      rw [matchRegimes_eq_spec t cal hnd, ih]
      rfl
  · intro t _
    cases hf : cal.find? (fun r => decide (r.date = dateOfTs t.entry_time)) with
    | none =>
      have hno : dateOfTs t.entry_time ∉ cal.map RegimeRow.date := by
        rw [List.find?_eq_none] at hf
        simp only [List.mem_map, not_exists]
        rintro r ⟨hr, hrd⟩
        exact absurd (by simp [hrd] : (decide (r.date = dateOfTs t.entry_time)) = true) (hf r hr)
      simp [tagTradeSpec, hf, hno]
    | some r =>
      have hmem := List.mem_of_find?_eq_some hf
      have hrd : r.date = dateOfTs t.entry_time := by
        have := List.find?_some hf
        simpa using this
      have htrend : r.trend ≠ "unclassified" := by
        have hw := (hwf r hmem).1
        simp only [List.mem_cons, List.not_mem_nil, or_false] at hw
        rcases hw with h | h | h <;> simp [h]
      have hmemdate : dateOfTs t.entry_time ∈ cal.map RegimeRow.date :=
        List.mem_map.mpr ⟨r, hmem, hrd⟩
      simp [tagTradeSpec, hf, htrend, hmemdate]

/-- C4 witness: the attribution theorem instantiated on a two-trade log
(one matched, one unmatched) and a one-row calendar. -/
theorem trade_attribution_exactly_once_witness :
    ((([⟨0, "uptrend", "low", 1⟩] : List RegimeRow).map RegimeRow.date).Nodup) ∧
    (∀ r ∈ ([⟨0, "uptrend", "low", 1⟩] : List RegimeRow),
      r.trend ∈ ["uptrend", "downtrend", "sideways"] ∧
      r.volatility ∈ ["high", "medium", "low"]) ∧
    (tagTrades [⟨0, 5⟩, ⟨2880, 3⟩] [⟨0, "uptrend", "low", 1⟩] =
      ([⟨0, 5⟩, ⟨2880, 3⟩] : List Trade).map (tagTradeSpec [⟨0, "uptrend", "low", 1⟩]) ∧
     ∀ t ∈ ([⟨0, 5⟩, ⟨2880, 3⟩] : List Trade),
      (((tagTradeSpec [⟨0, "uptrend", "low", 1⟩] t).trend = "unclassified" ∧
        (tagTradeSpec [⟨0, "uptrend", "low", 1⟩] t).volatility = "unclassified") ↔
        dateOfTs t.entry_time ∉ ([⟨0, "uptrend", "low", 1⟩] : List RegimeRow).map RegimeRow.date)) :=
  ⟨by simp, by intro r hr; simp at hr; simp [hr],
    trade_attribution_exactly_once [⟨0, 5⟩, ⟨2880, 3⟩] [⟨0, "uptrend", "low", 1⟩]
      (by simp) (by intro r hr; simp at hr; simp [hr])⟩

end MarketAnalysis

namespace MarketAnalysis

theorem le_foldl_max (xs : List ℚ) : ∀ x : ℚ, x ≤ xs.foldl max x := by
  induction xs with
  | nil => intro x; exact le_refl x
  | cons y ys ih => intro x; exact le_trans (le_max_left x y) (ih (max x y))

theorem mem_le_foldl_max (xs : List ℚ) : ∀ (x y : ℚ), y ∈ xs → y ≤ xs.foldl max x := by
  induction xs with
  | nil => intro x y h; simp at h
  | cons z zs ih =>
    intro x y h
    rcases List.mem_cons.mp h with h | h
    · subst h; exact le_trans (le_max_right x y) (le_foldl_max zs _)
    · exact ih _ y h

theorem listMax_ge (xs : List ℚ) (y : ℚ) (h : y ∈ xs) : y ≤ listMax xs := by
  cases xs with
  | nil => simp at h
  | cons x xs =>
    rcases List.mem_cons.mp h with h | h
    · subst h; exact le_foldl_max xs y
    · exact mem_le_foldl_max xs x y h

theorem foldl_min_le (xs : List ℚ) : ∀ x : ℚ, xs.foldl min x ≤ x := by
  induction xs with
  | nil => intro x; exact le_refl x
  | cons y ys ih => intro x; exact le_trans (ih (min x y)) (min_le_left x y)

theorem foldl_min_le_mem (xs : List ℚ) : ∀ (x y : ℚ), y ∈ xs → xs.foldl min x ≤ y := by
  induction xs with
  | nil => intro x y h; simp at h
  | cons z zs ih =>
    intro x y h
    rcases List.mem_cons.mp h with h | h
    · subst h; exact le_trans (foldl_min_le zs _) (min_le_right x y)
    · exact ih _ y h

theorem listMin_le (xs : List ℚ) (y : ℚ) (h : y ∈ xs) : listMin xs ≤ y := by
  cases xs with
  | nil => simp at h
  | cons x xs =>
    rcases List.mem_cons.mp h with h | h
    · subst h; exact foldl_min_le xs y
    · exact foldl_min_le_mem xs x y h

theorem mem_zipWith3 {f : α → β → γ → δ} :
    ∀ {as : List α} {bs : List β} {cs : List γ} {x : δ},
      x ∈ zipWith3 f as bs cs →
      ∃ (i : Nat) (ha : i < as.length) (hb : i < bs.length) (hc : i < cs.length),
        x = f (as.get ⟨i, ha⟩) (bs.get ⟨i, hb⟩) (cs.get ⟨i, hc⟩) := by
  intro as
  induction as with
  | nil => intro bs cs x h; simp [zipWith3] at h
  | cons a as ih =>
    intro bs cs x h
    cases bs with
    | nil => simp [zipWith3] at h
    | cons b bs =>
      cases cs with
      | nil => simp [zipWith3] at h
      | cons c cs =>
        rcases List.mem_cons.mp h with h | h
        · exact ⟨0, by simp, by simp, by simp, h⟩
        · obtain ⟨i, ha, hb, hc, hx⟩ := ih h
          exact ⟨i + 1, by simpa using ha, by simpa using hb, by simpa using hc, hx⟩

theorem mem_addIndicators (daily : List DailyBar) (r : DailyRow)
    (h : r ∈ addIndicators daily) :
    ∃ b ∈ daily, r.date = b.date ∧ r.open' = b.open' ∧ r.high = b.high ∧
      r.low = b.low ∧ r.close = b.close ∧ r.volume = b.volume := by
  unfold addIndicators at h
  obtain ⟨i, ha, hb, hc, hx⟩ := mem_zipWith3 h
  refine ⟨daily.get ⟨i, ha⟩, List.get_mem daily i ha, ?_⟩
  subst hx
  simp [mkDailyRow]

theorem mem_aggDaily (bars : List Bar) (b : DailyBar) (h : b ∈ aggDaily bars) :
    b.date ∈ bars.map Bar.date ∧
      b = aggGroup b.date (bars.filter (fun x => x.date = b.date)) := by
  unfold aggDaily at h
  obtain ⟨d, hd, hbd⟩ := List.mem_map.mp h
  have hdate : b.date = d := by rw [← hbd]; rfl
  subst hdate
  constructor
  · exact List.mem_dedup.mp ((List.perm_insertionSort _ _).mem_iff.mp hd)
  · exact hbd.symm

theorem aggDaily_map_date (bars : List Bar) :
    (aggDaily bars).map DailyBar.date =
      List.insertionSort (· ≤ ·) (bars.map Bar.date).dedup := by
  unfold aggDaily
  rw [List.map_map]
  have hid : (DailyBar.date ∘ fun d => aggGroup d (bars.filter (fun b => b.date = d))) = id := by
    funext d; rfl
  rw [hid, List.map_id]

theorem addIndicators_map_date (daily : List DailyBar) :
    (addIndicators daily).map DailyRow.date = daily.map DailyBar.date := by
  have hlen : (addIndicators daily).length = daily.length := by
    simp [addIndicators, zipWith3_length, emaSpan_length, trueRanges_length,
      List.length_zip]
  apply List.ext_getElem
  · simp [hlen]
  · intro i h1 h2
    rw [List.getElem_map, List.getElem_map]
    have hi : i < daily.length := by simpa using h2
    have hgd : (addIndicators daily)[i] = (addIndicators daily).getD i default :=
      (List.getD_eq_getElem _ _ (by simpa [hlen] using hi)).symm
    rw [hgd]
    unfold addIndicators
    rw [zipWith3_getD _ default (0, 0) 0 default daily _ _ i hi
      (by simp [List.length_zip, emaSpan_length]; omega)
      (by simp [emaSpan_length, trueRanges_length]; omega)]
    rw [List.getD_eq_getElem _ _ hi]
    rfl

end MarketAnalysis

namespace MarketAnalysis

/-- C6: the daily aggregation produces exactly one row per distinct
date of the input (unique dates, same date set), each row aggregating
its date's group by first/max/min/last/sum, and every produced row
satisfies `low ≤ high` when every input row does. -/
theorem daily_rows_per_date (bars : List Bar)
    (hhl : ∀ b ∈ bars, b.low ≤ b.high) :
    ((prepareDaily bars).map DailyRow.date).Nodup ∧
    (∀ d : Nat, d ∈ (prepareDaily bars).map DailyRow.date ↔ d ∈ bars.map Bar.date) ∧
    ∀ r ∈ prepareDaily bars,
      r.open' = ((bars.filter (fun b => b.date = r.date)).map Bar.open').headD 0 ∧
      r.high = listMax ((bars.filter (fun b => b.date = r.date)).map Bar.high) ∧
      r.low = listMin ((bars.filter (fun b => b.date = r.date)).map Bar.low) ∧
      r.close = ((bars.filter (fun b => b.date = r.date)).map Bar.close).getLastD 0 ∧
      r.volume = ((bars.filter (fun b => b.date = r.date)).map Bar.volume).sum ∧
      r.low ≤ r.high := by
  have hmapdate : (prepareDaily bars).map DailyRow.date =
      List.insertionSort (· ≤ ·) (bars.map Bar.date).dedup := by
    unfold prepareDaily
    rw [addIndicators_map_date, aggDaily_map_date]
  refine ⟨?_, ?_, ?_⟩
  · rw [hmapdate]
    exact ((List.perm_insertionSort _ _).nodup_iff).mpr (List.nodup_dedup _)
  · intro d
    rw [hmapdate, (List.perm_insertionSort _ _).mem_iff, List.mem_dedup]
  · intro r hr
    obtain ⟨b, hb, hdate, hopen, hhigh, hlow, hclose, hvol⟩ :=
      mem_addIndicators _ r hr
    obtain ⟨hbd, hbeq⟩ := mem_aggDaily bars b hb
    simp only [hdate]
    rw [hbeq] at hopen hhigh hlow hclose hvol
    simp only [aggGroup] at hopen hhigh hlow hclose hvol
    refine ⟨hopen, hhigh, hlow, hclose, hvol, ?_⟩
    rw [hlow, hhigh]
    obtain ⟨b0, hb0, hb0d⟩ := List.mem_map.mp hbd
    have hb0g : b0 ∈ bars.filter (fun x => x.date = b.date) :=
      List.mem_filter.mpr ⟨hb0, by simp [hb0d]⟩
    have h1 : listMin ((bars.filter (fun x => x.date = b.date)).map Bar.low) ≤ b0.low :=
      listMin_le _ _ (List.mem_map.mpr ⟨b0, hb0g, rfl⟩)
    have h2 : b0.high ≤ listMax ((bars.filter (fun x => x.date = b.date)).map Bar.high) :=
      listMax_ge _ _ (List.mem_map.mpr ⟨b0, hb0g, rfl⟩)
    calc listMin ((bars.filter (fun x => x.date = b.date)).map Bar.low)
        ≤ b0.low := h1
      _ ≤ b0.high := hhl b0 hb0
      _ ≤ listMax ((bars.filter (fun x => x.date = b.date)).map Bar.high) := h2

/-- C6 witness: the aggregation properties instantiated on a concrete
three-bar series spanning two dates. -/
theorem daily_rows_per_date_witness :
    (∀ b ∈ ([⟨0, 1, 3, 1, 2, 10⟩, ⟨0, 2, 5, 2, 4, 10⟩, ⟨1, 4, 4, 3, 3, 7⟩] : List Bar),
      b.low ≤ b.high) ∧
    (((prepareDaily [⟨0, 1, 3, 1, 2, 10⟩, ⟨0, 2, 5, 2, 4, 10⟩, ⟨1, 4, 4, 3, 3, 7⟩]).map
        DailyRow.date).Nodup ∧
     (∀ d : Nat,
        d ∈ (prepareDaily [⟨0, 1, 3, 1, 2, 10⟩, ⟨0, 2, 5, 2, 4, 10⟩, ⟨1, 4, 4, 3, 3, 7⟩]).map
          DailyRow.date ↔
        d ∈ ([⟨0, 1, 3, 1, 2, 10⟩, ⟨0, 2, 5, 2, 4, 10⟩, ⟨1, 4, 4, 3, 3, 7⟩] : List Bar).map
          Bar.date) ∧
     ∀ r ∈ prepareDaily [⟨0, 1, 3, 1, 2, 10⟩, ⟨0, 2, 5, 2, 4, 10⟩, ⟨1, 4, 4, 3, 3, 7⟩],
      r.open' = ((([⟨0, 1, 3, 1, 2, 10⟩, ⟨0, 2, 5, 2, 4, 10⟩, ⟨1, 4, 4, 3, 3, 7⟩] : List Bar).filter
          (fun b => b.date = r.date)).map Bar.open').headD 0 ∧
      r.high = listMax ((([⟨0, 1, 3, 1, 2, 10⟩, ⟨0, 2, 5, 2, 4, 10⟩, ⟨1, 4, 4, 3, 3, 7⟩] : List Bar).filter
          (fun b => b.date = r.date)).map Bar.high) ∧
      r.low = listMin ((([⟨0, 1, 3, 1, 2, 10⟩, ⟨0, 2, 5, 2, 4, 10⟩, ⟨1, 4, 4, 3, 3, 7⟩] : List Bar).filter
          (fun b => b.date = r.date)).map Bar.low) ∧
      r.close = ((([⟨0, 1, 3, 1, 2, 10⟩, ⟨0, 2, 5, 2, 4, 10⟩, ⟨1, 4, 4, 3, 3, 7⟩] : List Bar).filter
          (fun b => b.date = r.date)).map Bar.close).getLastD 0 ∧
      r.volume = ((([⟨0, 1, 3, 1, 2, 10⟩, ⟨0, 2, 5, 2, 4, 10⟩, ⟨1, 4, 4, 3, 3, 7⟩] : List Bar).filter
          (fun b => b.date = r.date)).map Bar.volume).sum ∧
      r.low ≤ r.high) :=
  ⟨by intro b hb; fin_cases hb <;> norm_num,
    daily_rows_per_date [⟨0, 1, 3, 1, 2, 10⟩, ⟨0, 2, 5, 2, 4, 10⟩, ⟨1, 4, 4, 3, 3, 7⟩]
      (by intro b hb; fin_cases hb <;> norm_num)⟩

end MarketAnalysis

namespace MarketAnalysis

/-- C3: the Sharpe estimator is absent exactly when the regime subset
has fewer than 20 trades, or fewer than 20 distinct entry dates after
summing `return_pct` per date, or the daily-return series has zero
standard deviation; otherwise it equals
mean × days / (std × sqrt days). -/
theorem regime_sharpe_gating (cap : ℚ) (data : List TaggedTrade) (hcap : 0 < cap) :
    (regimeSharpe cap data = none ↔
      data.length < 20 ∨ (dailyReturns cap data).length < 20 ∨
        sampleStd (dailyReturns cap data) = 0) ∧
    ∀ r : ℝ, regimeSharpe cap data = some r →
      r = (listMean (dailyReturns cap data) : ℝ) * ((dailyReturns cap data).length : ℝ) /
        (sampleStd (dailyReturns cap data) * Real.sqrt ((dailyReturns cap data).length : ℝ)) := by
  unfold regimeSharpe
  by_cases h1 : data.length < 20
  · simp [h1]
  · by_cases h2 : (dailyReturns cap data).length < 20 ∨ sampleStd (dailyReturns cap data) = 0
    · simp [h1, h2]
    · have h3 : ¬(dailyReturns cap data).length < 20 := fun h => h2 (Or.inl h)
      simp [h1, h2, h3]

/-- C3 witness: the gating theorem instantiated at the default capital
and the empty trade subset. -/
theorem regime_sharpe_gating_witness :
    (0 : ℚ) < 100000 ∧
    ((regimeSharpe 100000 [] = none ↔
      ([] : List TaggedTrade).length < 20 ∨ (dailyReturns 100000 []).length < 20 ∨
        sampleStd (dailyReturns 100000 []) = 0) ∧
     ∀ r : ℝ, regimeSharpe 100000 [] = some r →
      r = (listMean (dailyReturns 100000 []) : ℝ) * ((dailyReturns 100000 []).length : ℝ) /
        (sampleStd (dailyReturns 100000 []) * Real.sqrt ((dailyReturns 100000 []).length : ℝ))) :=
  ⟨by norm_num, regime_sharpe_gating 100000 [] (by norm_num)⟩

theorem flatMap_congrFun {f g : α → List β} (l : List α) (h : ∀ a, f a = g a) :
    l.flatMap f = l.flatMap g := by
  induction l with
  | nil => rfl
  | cons x xs ih => simp [List.flatMap_cons, h, ih]

/-- C7: `initial_capital` does not influence the trade counts, win
rates, average or total P&L of any emitted bucket: the metrics mapping
agrees across any two capital values once the Sharpe field (the only
capital-dependent output) is stripped. -/
theorem initial_capital_noninterference (cap1 cap2 : ℚ) (cal : List RegimeRow)
    (trades : List Trade) :
    (analyzePerformance cap1 cal trades).map (fun p => (p.1, stripSharpe p.2)) =
    (analyzePerformance cap2 cal trades).map (fun p => (p.1, stripSharpe p.2)) := by
  unfold analyzePerformance
  simp only [List.map_append, List.map_flatMap]
  have htrend : ∀ tv, (trendBucket cap1 (tagTrades trades cal) tv).map
      (fun p => (p.1, stripSharpe p.2)) =
      (trendBucket cap2 (tagTrades trades cal) tv).map (fun p => (p.1, stripSharpe p.2)) := by
    intro tv
    unfold trendBucket
    by_cases hl : 0 < ((tagTrades trades cal).filter (fun t => t.trend = tv)).length
    · simp [hl, stripSharpe, mkMetrics]
    · simp [hl]
  have hvol : ∀ vv, (volBucket cap1 (tagTrades trades cal) vv).map
      (fun p => (p.1, stripSharpe p.2)) =
      (volBucket cap2 (tagTrades trades cal) vv).map (fun p => (p.1, stripSharpe p.2)) := by
    intro vv
    unfold volBucket
    by_cases hl : 0 < ((tagTrades trades cal).filter (fun t => t.volatility = vv)).length
    · simp [hl, stripSharpe, mkMetrics]
    · simp [hl]
  rw [flatMap_congrFun _ htrend, flatMap_congrFun _ hvol]

/-- C8: an empty price series yields empty daily data and an empty
regime calendar, an empty trade log yields an empty metrics mapping,
and every emitted bucket has a positive trade count (zero-trade buckets
are omitted, never zero-filled). -/
theorem empty_inputs_and_bucket_omission (cap : ℚ) (cal : List RegimeRow)
    (trades : List Trade) :
    prepareDaily [] = [] ∧ classifyRegimes [] = [] ∧
    analyzePerformance cap cal [] = [] ∧
    (analyzePerformance cap cal trades).all (fun p => decide (0 < p.2.n_trades)) = true := by
  refine ⟨rfl, rfl, ?_, ?_⟩
  · unfold analyzePerformance tagTrades
    simp [trendRegimeValues, volatilityRegimeValues, trendBucket, volBucket]
  · rw [List.all_eq_true]
    intro p hp
    unfold analyzePerformance at hp
    rcases List.mem_append.mp hp with hp | hp
    · obtain ⟨tv, _, hptv⟩ := List.mem_flatMap.mp hp
      unfold trendBucket at hptv
      by_cases hl : 0 < ((tagTrades trades cal).filter (fun t => t.trend = tv)).length
      · simp only [hl, if_true, List.mem_singleton] at hptv
        subst hptv
        simpa [mkMetrics] using hl
      · simp [hl] at hptv
    · obtain ⟨vv, _, hpvv⟩ := List.mem_flatMap.mp hp
      unfold volBucket at hpvv
      by_cases hl : 0 < ((tagTrades trades cal).filter (fun t => t.volatility = vv)).length
      · simp only [hl, if_true, List.mem_singleton] at hpvv
        subst hpvv
        simpa [mkMetrics] using hl
      · simp [hl] at hpvv

end MarketAnalysis

namespace MarketAnalysis

theorem trendBucket_keys (cap : ℚ) (tw : List TaggedTrade) (tv : String) (k : String)
    (hk : k ∈ (trendBucket cap tw tv).map Prod.fst) :
    k = tv ++ "_regime" ∧ 0 < (tw.filter (fun t => t.trend = tv)).length := by
  unfold trendBucket at hk
  by_cases hl : 0 < (tw.filter (fun t => t.trend = tv)).length
  · simp only [hl, if_true, List.map_cons, List.map_nil, List.mem_singleton] at hk
    exact ⟨hk, hl⟩
  · simp [hl] at hk

theorem volBucket_keys (cap : ℚ) (tw : List TaggedTrade) (vv : String) (k : String)
    (hk : k ∈ (volBucket cap tw vv).map Prod.fst) :
    k = vv ++ "_vol" ∧ 0 < (tw.filter (fun t => t.volatility = vv)).length := by
  unfold volBucket at hk
  by_cases hl : 0 < (tw.filter (fun t => t.volatility = vv)).length
  · simp only [hl, if_true, List.map_cons, List.map_nil, List.mem_singleton] at hk
    exact ⟨hk, hl⟩
  · simp [hl] at hk

theorem trendBucket_key_mem (cap : ℚ) (tw : List TaggedTrade) (tv : String)
    (hl : 0 < (tw.filter (fun t => t.trend = tv)).length) :
    (tv ++ "_regime") ∈ (trendBucket cap tw tv).map Prod.fst := by
  simp [trendBucket, hl]

/-- C1 (amended): the volatility aggregation loop iterates only the
HIGH/MEDIUM/LOW enum, so no bucket keyed by an unclassified volatility
label is ever emitted; but the trend loop iterates the full
`TrendRegime` enum including UNCLASSIFIED, so unclassified-trend trades
form an `unclassified_regime` bucket exactly when at least one is
present. -/
theorem unclassified_bucket_keys (cap : ℚ) (cal : List RegimeRow)
    (trades : List Trade) :
    "unclassified_vol" ∉ (analyzePerformance cap cal trades).map Prod.fst ∧
    ("unclassified_regime" ∈ (analyzePerformance cap cal trades).map Prod.fst ↔
      ∃ t ∈ tagTrades trades cal, t.trend = "unclassified") := by
  constructor
  · intro hmem
    unfold analyzePerformance at hmem
    rw [List.map_append, List.mem_append] at hmem
    rcases hmem with hmem | hmem
    · rw [List.map_flatMap] at hmem
      obtain ⟨tv, htv, hk⟩ := List.mem_flatMap.mp hmem
      obtain ⟨hkey, _⟩ := trendBucket_keys _ _ _ _ hk
      fin_cases htv <;> exact absurd hkey (by decide)
    · rw [List.map_flatMap] at hmem
      obtain ⟨vv, hvv, hk⟩ := List.mem_flatMap.mp hmem
      obtain ⟨hkey, _⟩ := volBucket_keys _ _ _ _ hk
      fin_cases hvv <;> exact absurd hkey (by decide)
  · constructor
    · intro hmem
      unfold analyzePerformance at hmem
      rw [List.map_append, List.mem_append] at hmem
      rcases hmem with hmem | hmem
      · rw [List.map_flatMap] at hmem
        obtain ⟨tv, htv, hk⟩ := List.mem_flatMap.mp hmem
        obtain ⟨hkey, hl⟩ := trendBucket_keys _ _ _ _ hk
        have htv' : tv = "unclassified" := by
          fin_cases htv <;> first
            | rfl
            | exact absurd hkey (by decide)
        subst htv'
        obtain ⟨t, ht⟩ := List.exists_mem_of_length_pos hl
        obtain ⟨htm, htp⟩ := List.mem_filter.mp ht
        exact ⟨t, htm, by simpa using htp⟩
      · rw [List.map_flatMap] at hmem
        obtain ⟨vv, hvv, hk⟩ := List.mem_flatMap.mp hmem
        obtain ⟨hkey, _⟩ := volBucket_keys _ _ _ _ hk
        fin_cases hvv <;> exact absurd hkey (by decide)
    · rintro ⟨t, ht, htr⟩
      unfold analyzePerformance
      rw [List.map_append, List.mem_append]
      left
      rw [List.map_flatMap]
      refine List.mem_flatMap.mpr ⟨"unclassified", by simp [trendRegimeValues], ?_⟩
      have hl : 0 < ((tagTrades trades cal).filter
          (fun x => x.trend = "unclassified")).length :=
        List.length_pos_of_mem (List.mem_filter.mpr ⟨ht, by simpa using htr⟩)
      have := trendBucket_key_mem cap (tagTrades trades cal) "unclassified" hl
      simpa using this

/-- C1 counterexample: a trade whose entry date has no regime row is
tagged unclassified and the metrics mapping then contains a bucket
keyed `unclassified_regime`, contradicting the claim that no bucket is
keyed by an unclassified label. -/
theorem unclassified_regime_bucket_emitted :
    (analyzePerformance 100000 [] [⟨0, 5⟩]).map Prod.fst = ["unclassified_regime"] := by
  rfl

/-- C10: when the input frame lacks a `date` column and also lacks the
precomputed indicator columns, the pass-through branch leaves the
indicator columns absent and `classify_regimes` raises a `KeyError` on
its first missing column access. -/
theorem missing_columns_keyerror (cols : List String)
    (h1 : "date" ∉ cols) (h2 : "ma_short" ∉ cols) (h3 : "ma_long" ∉ cols)
    (h4 : "atr" ∉ cols) :
    ∃ c, classifyRegimesCols (prepareDailyCols cols) = Except.error c := by
  unfold prepareDailyCols
  rw [if_neg h1]
  unfold classifyRegimesCols getColE
  by_cases hc : "close" ∈ cols
  · exact ⟨"ma_long", by simp [hc, h3, Bind.bind, Except.bind]⟩
  · exact ⟨"close", by simp [hc, Bind.bind, Except.bind]⟩

/-- C10 witness: a frame with only OHLCV columns (no `date`, no
indicators) makes the classifier fail with a `KeyError`. -/
theorem missing_columns_keyerror_witness :
    ("date" ∉ ["open", "high", "low", "close", "volume"]) ∧
    ("ma_short" ∉ ["open", "high", "low", "close", "volume"]) ∧
    ("ma_long" ∉ ["open", "high", "low", "close", "volume"]) ∧
    ("atr" ∉ ["open", "high", "low", "close", "volume"]) ∧
    ∃ c, classifyRegimesCols (prepareDailyCols ["open", "high", "low", "close", "volume"]) =
      Except.error c :=
  ⟨by decide, by decide, by decide, by decide,
    missing_columns_keyerror ["open", "high", "low", "close", "volume"]
      (by decide) (by decide) (by decide) (by decide)⟩

end MarketAnalysis
